import Mathlib

/-!
Verification of the photo-cli batch upload pipeline (src/photo-cli.ts).

The TypeScript source is shallowly embedded below. Pure helpers become Lean
functions; the Firestore metadata store is a list of (document id, record)
pairs; the filesystem and external services (Cloudinary upload, EXIF
extraction, SHA-1 hashing) are abstracted as function-valued environment
fields, since their internals live outside this repository. The batch run
itself is modelled as a deterministic sequential execution of the upload
queue (each unit's only shared effect is a store write to its own key).
The bounded-concurrency window structure of the run loop is modelled
separately as a small-step state machine.

JS-specific details that are faithfully carried over: `String(n)` decimal
rendering (Lean's Nat.repr), `padStart(4, '0')`, the unanchored regex
IMG-(\d+) with leftmost match and greedy digit run, truthiness of
`exif?.ExposureTime` (0 is falsy), `Math.round(x) = ⌊x + 1/2⌋`, the default
lexicographic `Array.sort()` on path strings, and Firestore `orderBy desc`
picking the maximal `title` value. Number fields are modelled as ℚ / ℤ / ℕ
(the CLI never approaches double-precision limits).
-/

namespace PhotoCli

/-! ## String utilities (src/photo-cli.ts lines 43-60) -/

/-- ASCII lower-casing of one character, modelling `String.prototype.toLowerCase`
on the ASCII file names the CLI deals with. -/
def lowerCh (c : Char) : Char :=
  if 65 ≤ c.toNat ∧ c.toNat ≤ 90 then Char.ofNat (c.toNat + 32) else c

/-- Lower-case a whole string. -/
def lowerStr (s : String) : String := String.mk (s.data.map lowerCh)

/-- Source `isImage` (line 43): the regex test for a case-insensitive
.jpg/.jpeg/.png/.webp suffix. -/
def isImage (file : String) : Bool :=
  let l := (lowerStr file).data
  List.isSuffixOf ['.', 'j', 'p', 'g'] l ||
  List.isSuffixOf ['.', 'j', 'p', 'e', 'g'] l ||
  List.isSuffixOf ['.', 'p', 'n', 'g'] l ||
  List.isSuffixOf ['.', 'w', 'e', 'b', 'p'] l

/-- Code-unit comparison of char lists, modelling the default JS string
ordering used both by `Array.prototype.sort()` and by Firestore `orderBy`. -/
def leChars : List Char → List Char → Bool
  | [], _ => true
  | _ :: _, [] => false
  | a :: as, b :: bs =>
    if a.toNat < b.toNat then true
    else if b.toNat < a.toNat then false
    else leChars as bs

/-- String comparison on the underlying characters. -/
def leStr (a b : String) : Bool := leChars a.data b.data

/-- One step of insertion sort with respect to leStr. -/
def insertSorted (x : String) : List String → List String
  | [] => [x]
  | y :: ys => if leStr x y then x :: y :: ys else y :: insertSorted x ys

/-- Source line 124 `allFiles.sort()`: the default lexicographic string sort.
Any correct string sort yields the same list (duplicates are identical), so a
stable insertion sort is a faithful model. -/
def sortStrings : List String → List String
  | [] => []
  | x :: xs => insertSorted x (sortStrings xs)

/-! ## Identifier parsing and printing (lines 58-60, 73-87, 153-156) -/

/-- Longest leading run of decimal digits, modelling the greedy `(\d+)`. -/
def leadDigits : List Char → List Char
  | [] => []
  | c :: cs => if c.isDigit then c :: leadDigits cs else []

/-- Value of a digit string, modelling `parseInt(s, 10)` on the captured
digits. -/
def parseDigits (l : List Char) : Nat :=
  l.foldl (fun acc c => acc * 10 + (c.toNat - 48)) 0

/-- Attempt to match the regex `IMG-(\d+)` at the head of the character list,
returning the parsed capture group. -/
def imgAt : List Char → Option Nat
  | 'I' :: 'M' :: 'G' :: '-' :: rest =>
    match leadDigits rest with
    | [] => none
    | d => some (parseDigits d)
  | _ => none

/-- Leftmost match of the unanchored regex `IMG-(\d+)` (line 84
`lastTitle.match(/IMG-(\d+)/)` followed by `parseInt(match[1], 10)`). -/
def findImgNum : List Char → Option Nat
  | [] => none
  | c :: cs =>
    match imgAt (c :: cs) with
    | some n => some n
    | none => findImgNum cs

/-- Numeric suffix of an identifier string, via the source regex. -/
def suffixOf (s : String) : Option Nat := findImgNum s.data

/-- Decimal rendering of a number, modelling JS `String(num)` /
`num.toString()`. -/
def natStr (n : Nat) : String := Nat.repr n

/-- Source `padStart(4, '0')`: left-pad with zeros to a minimum width of 4. -/
def padStart4 (s : String) : String :=
  String.mk (List.replicate (4 - s.length) '0') ++ s

/-- Source `pad` (line 58): `num.toString().padStart(4, '0')`. -/
def pad (n : Nat) : String := padStart4 (natStr n)

/-- The identifier written for sequence number n, as built at line 155:
the template IMG-(zero-padded n). -/
def mkId (n : Nat) : String := "IMG-" ++ pad n

/-- Specification-side decimal digit list of a natural number, used to reason
about Nat.repr. -/
def natDigits (n : Nat) : List Char :=
  if _h : n < 10 then [Nat.digitChar n]
  else natDigits (n / 10) ++ [Nat.digitChar (n % 10)]
decreasing_by exact Nat.div_lt_self (by omega) (by omega)

/-! ## Metadata store (Firestore collection 'photos') -/

/-- The persisted document shape (lines 240-258 of the source; §3 of the
README schema). shotDate is an abstract timestamp. -/
structure PhotoRecord where
  title : String
  imageUrl : String
  width : ℚ
  height : ℚ
  camera : Option String
  aperture : Option String
  shutterSpeed : Option String
  iso : Option Int
  shotDate : Option Int
  hash : String
  featured : Bool
  deriving DecidableEq

/-- The metadata store: one document per identifier key. -/
abbrev Store := List (String × PhotoRecord)

/-- Source `hashExists` (lines 62-70): a `where('hash', '==', h)` existence
query. -/
def hashExists (store : Store) (h : String) : Bool :=
  store.any (fun p => p.2.hash == h)

/-- Firestore `.doc(id).set(record)`: create or replace the document with
this key. -/
def putDoc (store : Store) (id : String) (rec : PhotoRecord) : Store :=
  (id, rec) :: store.filter (fun p => !(p.1 == id))

/-- Number of persisted records carrying a given content hash. -/
def countHash (store : Store) (h : String) : Nat :=
  (store.filter (fun p => p.2.hash == h)).length

/-- The title fields over which `orderBy('title', 'desc')` ranges. -/
def storeTitles (store : Store) : List String :=
  store.map (fun p => p.2.title)

/-- The maximal title in the store (the single document returned by
`orderBy('title', 'desc').limit(1)`), or none when the store is empty. -/
def maxTitle (store : Store) : Option String :=
  match storeTitles store with
  | [] => none
  | t :: ts => some (ts.foldl (fun a b => if leStr a b then b else a) t)

/-- Source `getNextImageNumber` (lines 73-87): empty store gives 0; otherwise
match `IMG-(\d+)` against the maximal title and return suffix + 1 on a match,
0 otherwise. -/
def getNextImageNumber (store : Store) : Nat :=
  match maxTitle store with
  | none => 0
  | some t =>
    match findImgNum t.data with
    | some m => m + 1
    | none => 0

/-! ## Candidates and the upload queue (lines 135-156) -/

/-- Source type `PendingPhoto`: a surviving candidate before identifier
assignment. -/
structure PendingPhoto where
  filePath : String
  hash : String
  deriving DecidableEq

/-- One element of `uploadQueue`: a pending photo with its assigned
identifier. -/
structure QueueItem where
  filePath : String
  hash : String
  id : String
  deriving DecidableEq

/-- The dedup loop (lines 137-146): hash every discovered file and keep only
those whose hash is absent from the store, in discovery order. -/
def dedupLoop (hashF : String → String) (store : Store) : List String → List PendingPhoto
  | [] => []
  | p :: ps =>
    if hashExists store (hashF p) then dedupLoop hashF store ps
    else ⟨p, hashF p⟩ :: dedupLoop hashF store ps

/-- Lines 153-156: `pending.map((item, index) => ({...item, id:
IMG-(counter + index)}))`, written as a recursion carrying the running
counter. -/
def mkQueue (counter : Nat) : List PendingPhoto → List QueueItem
  | [] => []
  | p :: ps => ⟨p.filePath, p.hash, mkId counter⟩ :: mkQueue (counter + 1) ps

/-! ## Upload parameters and the Cloudinary transformation (lines 216-238) -/

/-- A Cloudinary `if` condition as configured by the source: width or height
strictly greater than a bound. -/
inductive TCond where
  | wGt (m : ℚ)
  | hGt (m : ℚ)
  deriving DecidableEq

/-- The crop mode the source configures. -/
inductive CropMode where
  | limit
  deriving DecidableEq

/-- One entry of the `transformation` array passed to the uploader. -/
structure TransformRule where
  cond : TCond
  width : ℚ
  height : ℚ
  crop : CropMode
  deriving DecidableEq

/-- The full Cloudinary upload options object built at lines 216-238. -/
structure UploadParams where
  folder : String
  publicId : String
  uniqueFilename : Bool
  overwrite : Bool
  transformation : List TransformRule
  deriving DecidableEq

/-- The options the source passes to `cloudinary.uploader.upload`: the target
folder, the assigned identifier as public name, overwrite disabled, and the
two conditional 2048px limit rules. -/
def uploadParams (id : String) : UploadParams :=
  ⟨"photo-portfolio", id, false, false,
   [⟨TCond.wGt 2048, 2048, 2048, CropMode.limit⟩,
    ⟨TCond.hGt 2048, 2048, 2048, CropMode.limit⟩]⟩

/-- Evaluate a rule condition against the current dimensions. -/
def condHolds : TCond → ℚ × ℚ → Bool
  | TCond.wGt m, wh => decide (m < wh.1)
  | TCond.hGt m, wh => decide (m < wh.2)

/-- Modelled from the spec: Cloudinary's `crop: 'limit'` semantics, which
this repository only configures, never implements (§4.4 step 3: scale down
preserving aspect ratio so neither dimension exceeds the bound; never
upscale). Exact rational scaling; Cloudinary's final integer rounding is not
modelled. -/
def limitFit (bw bh : ℚ) (wh : ℚ × ℚ) : ℚ × ℚ :=
  if wh.1 ≤ bw ∧ wh.2 ≤ bh then wh
  else
    let s := min (bw / wh.1) (bh / wh.2)
    (wh.1 * s, wh.2 * s)

/-- Modelled from the spec: apply one conditional transformation rule. -/
def applyRule (wh : ℚ × ℚ) (r : TransformRule) : ℚ × ℚ :=
  if condHolds r.cond wh then
    match r.crop with
    | CropMode.limit => limitFit r.width r.height wh
  else wh

/-- Modelled from the spec: chained transformation rules apply in sequence to
the running dimensions. -/
def applyTransforms (rules : List TransformRule) (wh : ℚ × ℚ) : ℚ × ℚ :=
  rules.foldl applyRule wh

/-! ## Per-unit processing (processPhoto, lines 195-259) -/

/-- The EXIF attributes the source picks (line 206): Model, FNumber,
ExposureTime, ISO, DateTimeOriginal. -/
structure ExifData where
  model : Option String
  fNumber : Option ℚ
  exposureTime : Option ℚ
  iso : Option Int
  dateTimeOriginal : Option Int
  deriving DecidableEq

/-- The fields of the Cloudinary upload response the source reads. -/
structure UploadResp where
  secureUrl : String
  width : ℚ
  height : ℚ
  deriving DecidableEq

/-- External collaborators of one batch run: file contents, the SHA-1 digest,
EXIF extraction (optional result, extraction failure is the none case), the
remote upload (which may fail), and whether the Firestore write fails. -/
structure Env where
  contentOf : String → String
  sha1 : String → String
  exif : String → Option ExifData
  upload : String → UploadParams → Except String UploadResp
  persistFails : String → Bool

/-- Source `hashFile` composed with file reading: the digest is a function of
the file content only. -/
def hashOf (env : Env) (p : String) : String := env.sha1 (env.contentOf p)

/-- JS `Math.round`: floor of x + 1/2. -/
def jsRound (q : ℚ) : ℤ := ⌊q + 1 / 2⌋

/-- Line 247: `exif?.FNumber ? f/... : null` (0 is falsy). -/
def apertureOf : Option ℚ → Option String
  | none => none
  | some f => if f == 0 then none else some ("f/" ++ toString f)

/-- Lines 248-250: `exif?.ExposureTime ? 1/Math.round(1 / t) : null`
(a zero or missing exposure time is falsy and yields null). -/
def shutterSpeedOf : Option ℚ → Option String
  | none => none
  | some t => if t == 0 then none else some ("1/" ++ toString (jsRound (1 / t)))

/-- The document written at lines 240-258. -/
def mkRecord (id : String) (resp : UploadResp) (exif : Option ExifData)
    (fileHash : String) : PhotoRecord :=
  ⟨id, resp.secureUrl, resp.width, resp.height,
   exif.bind (fun e => e.model),
   apertureOf (exif.bind (fun e => e.fNumber)),
   shutterSpeedOf (exif.bind (fun e => e.exposureTime)),
   exif.bind (fun e => e.iso),
   exif.bind (fun e => e.dateTimeOriginal),
   fileHash, false⟩

/-- Whether one unit's external calls fail (upload error or persistence
error), as a pure function of the environment and the item. -/
def unitFails (env : Env) (it : QueueItem) : Bool :=
  match env.upload it.filePath (uploadParams it.id) with
  | Except.error _ => true
  | Except.ok _ => env.persistFails it.id

/-- Source `processPhoto` (lines 195-259): in-run duplicate re-check (early
return, no write), EXIF extraction, remote upload with the configured
parameters, then the Firestore write. The Bool is true when the unit did not
throw. -/
def processPhoto (env : Env) (store : Store) (it : QueueItem) : Store × Bool :=
  if hashExists store it.hash then (store, true)
  else
    match env.upload it.filePath (uploadParams it.id) with
    | Except.error _ => (store, false)
    | Except.ok resp =>
      if env.persistFails it.id then (store, false)
      else (putDoc store it.id (mkRecord it.id resp (env.exif it.filePath) it.hash), true)

/-- The batch execution over the upload queue (lines 161-182), sequentialised:
each unit's try/catch outcome in queue order, threading the store. -/
def runUnits (env : Env) : Store → List QueueItem → Store × List (QueueItem × Bool)
  | store, [] => (store, [])
  | store, it :: rest =>
    let r := processPhoto env store it
    let rest' := runUnits env r.1 rest
    (rest'.1, (it, r.2) :: rest'.2)

/-- The `completed` counter: units whose try block finished. -/
def completedOf (outs : List (QueueItem × Bool)) : Nat :=
  (outs.filter (fun o => o.2)).length

/-- The `failed` list: identifiers of units whose try block threw, in
processing order. -/
def failedOf (outs : List (QueueItem × Bool)) : List String :=
  (outs.filter (fun o => !o.2)).map (fun o => o.1.id)

/-! ## Progress rendering (lines 176-179 and 320-336) -/

/-- One `renderProgress(done, total)` call: its arguments and whether the
trailing newline was written (`done === total`). The bar and percentage are
pure display derived from the same two arguments and are not modelled. -/
structure ProgressCall where
  done : Nat
  total : Nat
  newline : Bool
  deriving DecidableEq

/-- Source `renderProgress` (lines 320-336). -/
def renderProgress (done total : Nat) : ProgressCall :=
  ⟨done, total, done == total⟩

/-- The sequence of renderProgress calls, one after each unit outcome, with
the source's arguments `completed + failed.length` and `total`. -/
def progressGo (total : Nat) : List Bool → Nat → Nat → List ProgressCall
  | [], _, _ => []
  | ok :: rest, c, f =>
    let c' := if ok then c + 1 else c
    let f' := if ok then f else f + 1
    renderProgress (c' + f') total :: progressGo total rest c' f'

/-- Progress calls of a full run of outcomes. -/
def progressTrace (outs : List (QueueItem × Bool)) (total : Nat) : List ProgressCall :=
  progressGo total (outs.map (fun o => o.2)) 0 0

/-- Lines 184-188: the aggregated hard-failure message. -/
def failureMessage (failed : List String) : String :=
  "Upload completed with " ++ toString failed.length ++ " failures:\n" ++
  String.intercalate ", " failed

/-- The end-of-batch result: throw iff any unit failed. -/
def batchOutcome (failed : List String) : Except String Unit :=
  if failed.length > 0 then Except.error (failureMessage failed) else Except.ok ()

/-! ## Discovery (lines 91-129) -/

/-- The filesystem as the run sees it: whether the folder-list file exists,
its lines, and per-folder existence and directory listings. -/
structure FS where
  listFileExists : Bool
  listLines : List String
  folderExists : String → Bool
  folderFiles : String → List String

/-- JS `String.prototype.trim` on the ASCII-whitespace level. -/
def trimStr (s : String) : String :=
  String.mk (((s.data.dropWhile Char.isWhitespace).reverse.dropWhile
    Char.isWhitespace).reverse)

/-- Lines 97-101: split into lines, trim each, drop blanks. -/
def parseFolders (lines : List String) : List String :=
  (lines.map trimStr).filter (fun l => !(l == ""))

/-- `path.join(folder, f)` for the simple relative names the scan produces. -/
def pathJoin (folder name : String) : String := folder ++ "/" ++ name

/-- Lines 116-119: list one folder, keep image files, prefix the folder. -/
def folderScan (fs : FS) (folder : String) : List String :=
  ((fs.folderFiles folder).filter isImage).map (pathJoin folder)

/-- Lines 110-122: accumulate files over the listed folders, skipping missing
folders. -/
def discoverFrom (fs : FS) (folders : List String) : List String :=
  folders.foldl
    (fun acc folder =>
      if fs.folderExists folder then acc ++ folderScan fs folder else acc)
    []

/-! ## The whole batch run (uploadPhotos, lines 90-192) -/

/-- Observable result of one `uploadPhotos` invocation: the final store, the
assigned upload queue, the counters, every renderProgress call, and whether
the function returned normally or threw. -/
structure RunResult where
  store : Store
  queue : List QueueItem
  completed : Nat
  failed : List String
  progress : List ProgressCall
  outcome : Except String Unit

/-- Source `uploadPhotos` (lines 90-192): abort when the list file is
missing; early normal returns when no folders, no images or no new photos;
otherwise fetch the counter, dedup, assign identifiers, run all units and
aggregate. -/
def uploadPhotosRun (env : Env) (fs : FS) (store : Store) : RunResult :=
  if fs.listFileExists then
    let folders := parseFolders fs.listLines
    if folders.isEmpty then ⟨store, [], 0, [], [], Except.ok ()⟩
    else
      let allFiles := sortStrings (discoverFrom fs folders)
      if allFiles.isEmpty then ⟨store, [], 0, [], [], Except.ok ()⟩
      else
        let pending := dedupLoop (hashOf env) store allFiles
        if pending.isEmpty then ⟨store, [], 0, [], [], Except.ok ()⟩
        else
          let queue := mkQueue (getNextImageNumber store) pending
          let r := runUnits env store queue
          let failed := failedOf r.2
          ⟨r.1, queue, completedOf r.2, failed, progressTrace r.2 allFiles.length,
           batchOutcome failed⟩
  else ⟨store, [], 0, [], [], Except.error "❌ Folder list file not found"⟩

/-- The identifier assignment of a run, as a function of the hash function,
the store state and the discovered paths (fixed before any unit executes). -/
def assignments (hashF : String → String) (store : Store) (paths : List String) :
    List QueueItem :=
  mkQueue (getNextImageNumber store) (dedupLoop hashF store (sortStrings paths))

/-! ## The bounded-concurrency window structure (lines 32, 161-182) -/

/-- Source line 32. -/
def CONCURRENCY : Nat := 8

/-- Fuelled slicing of the queue into windows, mirroring the loop
`for (i = 0; i < n; i += CONCURRENCY) slice(i, i + CONCURRENCY)`. -/
def windowsGo : Nat → List String → List (List String)
  | _, [] => []
  | 0, _ :: _ => []
  | fuel + 1, x :: xs =>
    ((x :: xs).take CONCURRENCY) :: windowsGo fuel ((x :: xs).drop CONCURRENCY)

/-- The windows the run loop processes, in order. -/
def windowsOf (l : List String) : List (List String) := windowsGo l.length l

/-- Scheduler state of the window loop: remaining windows, units of the
current window not yet started, and units in flight. -/
structure WState where
  windows : List (List String)
  pending : List String
  inflight : List String
  deriving DecidableEq

/-- Initial state for a queue of unit identifiers. -/
def initW (ids : List String) : WState := ⟨windowsOf ids, [], []⟩

/-- Small-step semantics of the window loop: start a unit of the current
window, finish a unit in flight in any order, or advance to the next window
once the current one is fully drained (the `await Promise.all` barrier). -/
inductive WStep : WState → WState → Prop
  | start (ws : List (List String)) (u : String) (rest fl : List String) :
      WStep ⟨ws, u :: rest, fl⟩ ⟨ws, rest, u :: fl⟩
  | finish (ws : List (List String)) (p fl₁ fl₂ : List String) (u : String) :
      WStep ⟨ws, p, fl₁ ++ u :: fl₂⟩ ⟨ws, p, fl₁ ++ fl₂⟩
  | next (w : List String) (ws : List (List String)) :
      WStep ⟨w :: ws, [], []⟩ ⟨ws, w, []⟩

/-- Reachability under the window-loop semantics. -/
def ReachW (s t : WState) : Prop := Relation.ReflTransGen WStep s t

/-- Invariant of the window loop: every remaining window fits the bound and
the current window's unstarted plus in-flight units fit the bound. -/
def InvW (s : WState) : Prop :=
  (∀ w ∈ s.windows, w.length ≤ CONCURRENCY) ∧
  s.pending.length + s.inflight.length ≤ CONCURRENCY

/-! ## Concrete fixtures used by counterexamples and witnesses -/

/-- A minimal record carrying just a title and a hash. -/
def recOf (title h : String) : PhotoRecord :=
  ⟨title, "", 0, 0, none, none, none, none, none, h, false⟩

/-- Store whose lexicographically maximal title does not match IMG-(\d+)
although another title does. -/
def storeC1 : Store := [("IMG-0007", recOf "IMG-0007" "h1"), ("Z", recOf "Z" "h2")]

/-- Store holding exactly one well-formed identifier. -/
def storeOne : Store := [("IMG-0007", recOf "IMG-0007" "h1")]

/-- Environment whose uploads always succeed and whose hash function is the
file content itself. -/
def envW : Env :=
  ⟨fun _ => "c", fun s => s, fun _ => none,
   fun _ _ => Except.ok ⟨"url", 100, 50⟩, fun _ => false⟩

/-- Environment distinguishing two file contents, with content "B" already
persisted in storeDup below. -/
def envDup : Env :=
  ⟨fun p => if p == "f/b.jpg" then "B" else "A", fun s => s, fun _ => none,
   fun _ _ => Except.ok ⟨"url", 100, 50⟩, fun _ => false⟩

/-- Store already containing the content hash "B". -/
def storeDup : Store := [("IMG-0000", recOf "IMG-0000" "B")]

/-- A filesystem with one folder of two images, the second a duplicate under
envDup. -/
def fsDup : FS := ⟨true, ["f"], fun _ => true, fun _ => ["a.jpg", "b.jpg"]⟩

/-- A single-folder single-image filesystem. -/
def fsA : FS := ⟨true, ["d"], fun _ => true, fun _ => ["a.jpg"]⟩

/-- The same content under a different file name. -/
def fsB : FS := ⟨true, ["d"], fun _ => true, fun _ => ["b.jpg"]⟩

/-- A filesystem whose folder-list file is missing. -/
def fsMissing : FS := ⟨false, ["d"], fun _ => true, fun _ => ["a.jpg"]⟩

/-- A filesystem where only folder "g" exists. -/
def fsOnlyG : FS :=
  ⟨true, ["g", "bad"], fun f => f == "g", fun _ => ["a.jpg"]⟩

/-- An environment failing the upload of one specific file. -/
def envFail : Env :=
  ⟨fun _ => "c", fun s => s, fun _ => none,
   fun p _ => if p == "bad" then Except.error "boom" else Except.ok ⟨"url", 100, 50⟩,
   fun _ => false⟩

/-- A two-unit queue whose second unit's upload fails under envFail. -/
def queueFail : List QueueItem :=
  [⟨"good", "h1", "IMG-0000"⟩, ⟨"bad", "h2", "IMG-0001"⟩]

/-! ## Lemmas about the string order used for sorting and orderBy -/

theorem charEq_of_toNat_eq {a b : Char} (h : a.toNat = b.toNat) : a = b := by
  have ha := Char.ofNat_toNat a
  have hb := Char.ofNat_toNat b
  rw [← ha, ← hb, h]

theorem leChars_total (a : List Char) : ∀ b, leChars a b = true ∨ leChars b a = true := by
  induction a with
  | nil => intro b; left; rfl
  | cons x xs ih =>
    intro b
    cases b with
    | nil => right; rfl
    | cons y ys =>
      by_cases h1 : x.toNat < y.toNat
      · left; simp [leChars, h1]
      · by_cases h2 : y.toNat < x.toNat
        · right; simp [leChars, h2]
        · rcases ih ys with h | h
          · left; simp [leChars, h1, h2, h]
          · right; simp [leChars, h1, h2, h]

theorem leChars_antisymm : ∀ a b : List Char, leChars a b = true → leChars b a = true → a = b := by
  intro a
  induction a with
  | nil =>
    intro b _ hba
    cases b with
    | nil => rfl
    | cons y ys => simp [leChars] at hba
  | cons x xs ih =>
    intro b hab hba
    cases b with
    | nil => simp [leChars] at hab
    | cons y ys =>
      by_cases h1 : x.toNat < y.toNat
      · have h2 : ¬ y.toNat < x.toNat := by omega
        simp [leChars, h1, h2] at hba
      · by_cases h2 : y.toNat < x.toNat
        · simp [leChars, h1, h2] at hab
        · have hxy : x = y := charEq_of_toNat_eq (by omega)
          simp [leChars, h1, h2] at hab hba
          rw [hxy, ih ys hab hba]

theorem leChars_trans : ∀ a b c : List Char,
    leChars a b = true → leChars b c = true → leChars a c = true := by
  intro a
  induction a with
  | nil => intro b c _ _; rfl
  | cons x xs ih =>
    intro b c hab hbc
    cases b with
    | nil => simp [leChars] at hab
    | cons y ys =>
      cases c with
      | nil => simp [leChars] at hbc
      | cons z zs =>
        by_cases hxy : x.toNat < y.toNat
        · by_cases hyz : y.toNat < z.toNat
          · have hxz : x.toNat < z.toNat := by omega
            simp [leChars, hxz]
          · by_cases hzy : z.toNat < y.toNat
            · simp [leChars, hyz, hzy] at hbc
            · have hxz : x.toNat < z.toNat := by omega
              simp [leChars, hxz]
        · by_cases hyx : y.toNat < x.toNat
          · simp [leChars, hxy, hyx] at hab
          · simp only [leChars, if_neg hxy, if_neg hyx] at hab
            by_cases hyz : y.toNat < z.toNat
            · have hxz : x.toNat < z.toNat := by omega
              simp [leChars, hxz]
            · by_cases hzy : z.toNat < y.toNat
              · simp [leChars, hyz, hzy] at hbc
              · simp only [leChars, if_neg hyz, if_neg hzy] at hbc
                have hxz : ¬ x.toNat < z.toNat := by omega
                have hzx : ¬ z.toNat < x.toNat := by omega
                simp only [leChars, if_neg hxz, if_neg hzx]
                exact ih ys zs hab hbc

theorem leStr_total (a b : String) : leStr a b = true ∨ leStr b a = true :=
  leChars_total a.data b.data

theorem leStr_antisymm {a b : String} (hab : leStr a b = true) (hba : leStr b a = true) :
    a = b := by
  cases a with
  | mk da =>
    cases b with
    | mk db =>
      have : da = db := leChars_antisymm da db hab hba
      simp [this]

theorem leStr_trans {a b c : String} (hab : leStr a b = true) (hbc : leStr b c = true) :
    leStr a c = true :=
  leChars_trans a.data b.data c.data hab hbc

theorem insertSorted_perm (x : String) (l : List String) :
    (insertSorted x l).Perm (x :: l) := by
  induction l with
  | nil => exact List.Perm.refl _
  | cons y ys ih =>
    by_cases h : leStr x y
    · simp [insertSorted, h]
    · simp only [insertSorted, if_neg h]
      exact (List.Perm.cons y ih).trans (List.Perm.swap x y ys)

theorem sortStrings_perm (l : List String) : (sortStrings l).Perm l := by
  induction l with
  | nil => exact List.Perm.refl _
  | cons x xs ih =>
    exact (insertSorted_perm x (sortStrings xs)).trans (List.Perm.cons x ih)

theorem mem_insertSorted {a x : String} {l : List String}
    (h : a ∈ insertSorted x l) : a = x ∨ a ∈ l := by
  have := (insertSorted_perm x l).mem_iff.mp h
  simpa using this

theorem insertSorted_sorted (x : String) (l : List String)
    (h : l.Pairwise (fun a b => leStr a b = true)) :
    (insertSorted x l).Pairwise (fun a b => leStr a b = true) := by
  induction l with
  | nil => simp [insertSorted]
  | cons y ys ih =>
    rcases List.pairwise_cons.mp h with ⟨hy, hys⟩
    by_cases hxy : leStr x y
    · simp only [insertSorted, if_pos hxy]
      refine List.pairwise_cons.mpr ⟨?_, h⟩
      intro b hb
      rcases List.mem_cons.mp hb with hb | hb
      · rw [hb]; exact hxy
      · exact leStr_trans hxy (hy b hb)
    · simp only [insertSorted, if_neg hxy]
      refine List.pairwise_cons.mpr ⟨?_, ih hys⟩
      intro b hb
      rcases mem_insertSorted hb with hb | hb
      · rw [hb]
        rcases leStr_total x y with hc | hc
        · exact absurd hc hxy
        · exact hc
      · exact hy b hb

theorem sortStrings_sorted (l : List String) :
    (sortStrings l).Pairwise (fun a b => leStr a b = true) := by
  induction l with
  | nil => simp [sortStrings]
  | cons x xs ih => exact insertSorted_sorted x (sortStrings xs) ih

theorem sortStrings_eq_of_perm {l₁ l₂ : List String} (h : l₁.Perm l₂) :
    sortStrings l₁ = sortStrings l₂ := by
  have hperm : (sortStrings l₁).Perm (sortStrings l₂) :=
    ((sortStrings_perm l₁).trans h).trans (sortStrings_perm l₂).symm
  exact @List.eq_of_perm_of_sorted String (fun a b => leStr a b = true)
    ⟨fun a b hab hba => leStr_antisymm hab hba⟩ _ _ hperm
    (sortStrings_sorted l₁) (sortStrings_sorted l₂)

/-! ## Lemmas about decimal digits and the identifier roundtrip -/

theorem digitChar_isDigit : ∀ d < 10, (Nat.digitChar d).isDigit = true := by decide

theorem digitChar_toNat : ∀ d < 10, (Nat.digitChar d).toNat = 48 + d := by decide

theorem natDigits_ne_nil (n : Nat) : natDigits n ≠ [] := by
  rw [natDigits]
  split
  · simp
  · simp

theorem natDigits_all_digits (n : Nat) : ∀ c ∈ natDigits n, c.isDigit = true := by
  induction n using Nat.strong_induction_on with
  | _ n ih =>
    rw [natDigits]
    split
    · intro c hc
      rcases List.mem_singleton.mp hc with rfl
      exact digitChar_isDigit n (by omega)
    · intro c hc
      rcases List.mem_append.mp hc with hc | hc
      · exact ih (n / 10) (Nat.div_lt_self (by omega) (by omega)) c hc
      · rcases List.mem_singleton.mp hc with rfl
        exact digitChar_isDigit (n % 10) (by omega)

theorem parseDigits_append_one (l : List Char) (c : Char) :
    parseDigits (l ++ [c]) = parseDigits l * 10 + (c.toNat - 48) := by
  simp [parseDigits, List.foldl_append]

theorem parseDigits_natDigits (n : Nat) : parseDigits (natDigits n) = n := by
  induction n using Nat.strong_induction_on with
  | _ n ih =>
    rw [natDigits]
    split
    · rename_i h10
      show parseDigits [Nat.digitChar n] = n
      simp [parseDigits, digitChar_toNat n (by omega)]
    · rename_i h10
      rw [parseDigits_append_one,
        ih (n / 10) (Nat.div_lt_self (by omega) (by omega)),
        digitChar_toNat (n % 10) (by omega)]
      omega

theorem toDigitsCore_eq : ∀ (n : Nat), ∀ (fuel : Nat) (ds : List Char), n < fuel →
    Nat.toDigitsCore 10 fuel n ds = natDigits n ++ ds := by
  intro n
  induction n using Nat.strong_induction_on with
  | _ n ih =>
    intro fuel ds hlt
    match fuel with
    | 0 => omega
    | fuel + 1 =>
      rw [Nat.toDigitsCore]
      by_cases h10 : n < 10
      · have h0 : n / 10 = 0 := Nat.div_eq_of_lt h10
        simp only [h0, if_pos rfl]
        rw [natDigits]
        simp [Nat.mod_eq_of_lt h10, h10]
      · have hne : ¬ (n / 10 = 0) := by omega
        simp only [if_neg hne]
        have hdivlt : n / 10 < n := Nat.div_lt_self (by omega) (by omega)
        have hfuel : n / 10 < fuel := by omega
        rw [ih (n / 10) hdivlt fuel (Nat.digitChar (n % 10) :: ds) hfuel]
        conv_rhs => rw [natDigits]
        simp [h10]

theorem natStr_data (n : Nat) : (natStr n).data = natDigits n := by
  show (Nat.repr n).data = natDigits n
  unfold Nat.repr Nat.toDigits
  rw [toDigitsCore_eq n (n + 1) [] (by omega)]
  simp [List.asString]

theorem parseDigits_replicate_zero (k : Nat) (ds : List Char) :
    parseDigits (List.replicate k '0' ++ ds) = parseDigits ds := by
  induction k with
  | zero => simp
  | succ k ih =>
    rw [List.replicate_succ, List.cons_append]
    show parseDigits ('0' :: (List.replicate k '0' ++ ds)) = parseDigits ds
    simp only [parseDigits, List.foldl_cons]
    exact ih

theorem leadDigits_of_all (l : List Char) (h : ∀ c ∈ l, c.isDigit = true) :
    leadDigits l = l := by
  induction l with
  | nil => rfl
  | cons c cs ih =>
    have hc : c.isDigit = true := h c (List.mem_cons_self c cs)
    simp only [leadDigits, if_pos hc]
    rw [ih (fun x hx => h x (List.mem_cons_of_mem c hx))]

theorem imgAt_digits (l : List Char) (hne : l ≠ []) (hall : ∀ c ∈ l, c.isDigit = true) :
    imgAt ('I' :: 'M' :: 'G' :: '-' :: l) = some (parseDigits l) := by
  cases l with
  | nil => exact absurd rfl hne
  | cons r rs =>
    rw [imgAt, leadDigits_of_all _ hall]

theorem suffixOf_mkId (n : Nat) : suffixOf (mkId n) = some n := by
  have hrep : (String.mk (List.replicate (4 - (natStr n).length) '0')).data
      = List.replicate (4 - (natStr n).length) '0' := rfl
  have hdata : (mkId n).data
      = 'I' :: 'M' :: 'G' :: '-' ::
        (List.replicate (4 - (natStr n).length) '0' ++ natDigits n) := by
    show ("IMG-" ++ padStart4 (natStr n)).data = _
    rw [String.data_append]
    unfold padStart4
    rw [String.data_append, hrep, natStr_data]
    rfl
  unfold suffixOf
  rw [hdata]
  have hall : ∀ c ∈ List.replicate (4 - (natStr n).length) '0' ++ natDigits n,
      c.isDigit = true := by
    intro c hc
    rcases List.mem_append.mp hc with hc | hc
    · rw [List.eq_of_mem_replicate hc]; decide
    · exact natDigits_all_digits n c hc
  have hne : List.replicate (4 - (natStr n).length) '0' ++ natDigits n ≠ [] := by
    intro hcon
    exact natDigits_ne_nil n (List.append_eq_nil.mp hcon).2
  have hparse : parseDigits (List.replicate (4 - (natStr n).length) '0' ++ natDigits n)
      = n := by
    rw [parseDigits_replicate_zero, parseDigits_natDigits]
  rw [findImgNum]
  rw [imgAt_digits _ hne hall, hparse]

/-! ## Lemmas about the upload queue -/

theorem mkQueue_length (c : Nat) (ps : List PendingPhoto) :
    (mkQueue c ps).length = ps.length := by
  induction ps generalizing c with
  | nil => rfl
  | cons p ps ih => simp [mkQueue, ih]

theorem mkQueue_get_id (ps : List PendingPhoto) :
    ∀ (c k : Nat) (hk : k < (mkQueue c ps).length),
      ((mkQueue c ps).get ⟨k, hk⟩).id = mkId (c + k) := by
  induction ps with
  | nil => intro c k hk; simp [mkQueue] at hk
  | cons p ps ih =>
    intro c k hk
    cases k with
    | zero => rfl
    | succ k =>
      have hk' : k < (mkQueue (c + 1) ps).length := by
        simpa [mkQueue] using hk
      have := ih (c + 1) k hk'
      have harith : c + 1 + k = c + (k + 1) := by omega
      rw [harith] at this
      simpa [mkQueue, List.get] using this

/-! ## Lemmas about deduplication -/

theorem dedupLoop_eq (hashF : String → String) (store : Store) :
    ∀ files : List String,
      dedupLoop hashF store files
        = (files.filter (fun p => !hashExists store (hashF p))).map
            (fun p => (⟨p, hashF p⟩ : PendingPhoto)) := by
  intro files
  induction files with
  | nil => rfl
  | cons p ps ih =>
    by_cases h : hashExists store (hashF p)
    · simp [dedupLoop, h, ih, List.filter_cons]
    · simp [dedupLoop, h, ih, List.filter_cons]

theorem dedupLoop_paths_sublist (hashF : String → String) (store : Store)
    (files : List String) :
    ((dedupLoop hashF store files).map (fun q => q.filePath)).Sublist files := by
  rw [dedupLoop_eq, List.map_map]
  have hid : ((fun q : PendingPhoto => q.filePath) ∘
      (fun p => (⟨p, hashF p⟩ : PendingPhoto))) = id := rfl
  rw [hid, List.map_id]
  exact List.filter_sublist _

theorem dedupLoop_drops (hashF : String → String) (store : Store)
    (files : List String) (p : String) (_hp : p ∈ files)
    (hdup : hashExists store (hashF p) = true) :
    p ∉ (dedupLoop hashF store files).map (fun q => q.filePath) := by
  intro hmem
  rw [dedupLoop_eq, List.map_map] at hmem
  have hid : ((fun q : PendingPhoto => q.filePath) ∘
      (fun p => (⟨p, hashF p⟩ : PendingPhoto))) = id := rfl
  rw [hid, List.map_id] at hmem
  have := List.of_mem_filter hmem
  simp [hdup] at this

/-! ## Lemmas about the store -/

theorem putDoc_fresh (store : Store) (id : String) (rec : PhotoRecord)
    (h : ∀ p ∈ store, p.1 ≠ id) : putDoc store id rec = (id, rec) :: store := by
  unfold putDoc
  congr 1
  apply List.filter_eq_self.mpr
  intro p hp
  simp [h p hp]

theorem countHash_of_not_exists (store : Store) (h : String)
    (hne : hashExists store h = false) : countHash store h = 0 := by
  unfold countHash
  rw [List.filter_eq_nil_iff.mpr]
  · rfl
  · intro p hp
    unfold hashExists at hne
    rw [List.any_eq_false] at hne
    simp [hne p hp]

theorem countHash_cons (i : String) (r : PhotoRecord) (s : Store) (h : String) :
    countHash ((i, r) :: s) h = (if r.hash == h then 1 else 0) + countHash s h := by
  unfold countHash
  rw [List.filter_cons]
  split
  · simp [Nat.add_comm]
  · simp

/-! ## Lemmas about the batch execution -/

theorem hashExists_cons (i : String) (r : PhotoRecord) (s : Store) (h : String) :
    hashExists ((i, r) :: s) h = ((r.hash == h) || hashExists s h) := rfl

theorem processPhoto_dup (env : Env) (store : Store) (it : QueueItem)
    (h : hashExists store it.hash = true) :
    processPhoto env store it = (store, true) := by
  unfold processPhoto
  rw [if_pos h]

theorem processPhoto_ok (env : Env) (store : Store) (it : QueueItem)
    (hdup : hashExists store it.hash = false) (hok : unitFails env it = false) :
    ∃ resp, env.upload it.filePath (uploadParams it.id) = Except.ok resp ∧
      processPhoto env store it
        = (putDoc store it.id (mkRecord it.id resp (env.exif it.filePath) it.hash), true) := by
  unfold unitFails at hok
  unfold processPhoto
  rw [if_neg (by simp [hdup])]
  cases hu : env.upload it.filePath (uploadParams it.id) with
  | error e => rw [hu] at hok; cases hok
  | ok resp =>
    rw [hu] at hok
    have hok' : env.persistFails it.id = false := hok
    refine ⟨resp, rfl, ?_⟩
    show (if env.persistFails it.id = true then (store, false)
      else (putDoc store it.id (mkRecord it.id resp (env.exif it.filePath) it.hash), true))
      = (putDoc store it.id (mkRecord it.id resp (env.exif it.filePath) it.hash), true)
    rw [if_neg (by simp [hok'])]

theorem processPhoto_fail (env : Env) (store : Store) (it : QueueItem)
    (hdup : hashExists store it.hash = false) (hbad : unitFails env it = true) :
    processPhoto env store it = (store, false) := by
  unfold unitFails at hbad
  unfold processPhoto
  rw [if_neg (by simp [hdup])]
  cases hu : env.upload it.filePath (uploadParams it.id) with
  | error e => rfl
  | ok resp =>
    rw [hu] at hbad
    have hbad' : env.persistFails it.id = true := hbad
    show (if env.persistFails it.id = true then (store, false)
      else (putDoc store it.id (mkRecord it.id resp (env.exif it.filePath) it.hash), true))
      = (store, false)
    rw [if_pos hbad']

theorem runUnits_spec (env : Env) :
    ∀ (q : List QueueItem) (store : Store),
      (∀ it ∈ q, hashExists store it.hash = false) →
      q.Pairwise (fun a b => a.hash ≠ b.hash) →
      (∀ it ∈ q, ∀ p ∈ store, p.1 ≠ it.id) →
      q.Pairwise (fun a b => a.id ≠ b.id) →
      (runUnits env store q).2 = q.map (fun it => (it, !unitFails env it)) := by
  intro q
  induction q with
  | nil => intro store _ _ _ _; rfl
  | cons it rest ih =>
    intro store h1 h2 h3 h4
    have hfresh : hashExists store it.hash = false := h1 it (List.mem_cons_self it rest)
    rcases List.pairwise_cons.mp h2 with ⟨h2hd, h2tl⟩
    rcases List.pairwise_cons.mp h4 with ⟨h4hd, h4tl⟩
    cases hun : unitFails env it with
    | false =>
      obtain ⟨resp, hu, hp⟩ := processPhoto_ok env store it hfresh hun
      have hput : putDoc store it.id (mkRecord it.id resp (env.exif it.filePath) it.hash)
          = (it.id, mkRecord it.id resp (env.exif it.filePath) it.hash) :: store :=
        putDoc_fresh _ _ _ (fun p hp' => h3 it (List.mem_cons_self it rest) p hp')
      have hrest : (runUnits env ((it.id, mkRecord it.id resp (env.exif it.filePath) it.hash) :: store) rest).2
          = rest.map (fun x => (x, !unitFails env x)) := by
        apply ih
        · intro x hx
          rw [hashExists_cons]
          have hhash : (mkRecord it.id resp (env.exif it.filePath) it.hash).hash
              = it.hash := rfl
          rw [hhash]
          have hne : it.hash ≠ x.hash := h2hd x hx
          simp [h1 x (List.mem_cons_of_mem it hx), hne]
        · exact h2tl
        · intro x hx p hp'
          rcases List.mem_cons.mp hp' with hp' | hp'
          · rw [hp']
            exact h4hd x hx
          · exact h3 x (List.mem_cons_of_mem it hx) p hp'
        · exact h4tl
      simp only [runUnits, hp, hput, hrest, List.map_cons, hun, Bool.not_false]
    | true =>
      have hp := processPhoto_fail env store it hfresh hun
      have hrest : (runUnits env store rest).2
          = rest.map (fun x => (x, !unitFails env x)) := by
        apply ih
        · intro x hx; exact h1 x (List.mem_cons_of_mem it hx)
        · exact h2tl
        · intro x hx p hp'; exact h3 x (List.mem_cons_of_mem it hx) p hp'
        · exact h4tl
      simp only [runUnits, hp, hrest, List.map_cons, hun, Bool.not_true]

theorem outs_counts (outs : List (QueueItem × Bool)) :
    completedOf outs + (failedOf outs).length = outs.length := by
  induction outs with
  | nil => rfl
  | cons o os ih =>
    cases ho : o.2 with
    | false => simp [completedOf, failedOf, List.filter_cons, ho] at ih ⊢; omega
    | true => simp [completedOf, failedOf, List.filter_cons, ho] at ih ⊢; omega

theorem failedOf_map (env : Env) (q : List QueueItem) :
    failedOf (q.map (fun it => (it, !unitFails env it)))
      = (q.filter (fun it => unitFails env it)).map (fun it => it.id) := by
  induction q with
  | nil => rfl
  | cons it rest ih =>
    cases hun : unitFails env it with
    | false => simp [failedOf, List.filter_cons, hun] at ih ⊢; exact ih
    | true => simp [failedOf, List.filter_cons, hun] at ih ⊢; exact ih

theorem runUnits_length (env : Env) :
    ∀ (q : List QueueItem) (store : Store), ((runUnits env store q).2).length = q.length := by
  intro q
  induction q with
  | nil => intro store; rfl
  | cons it rest ih => intro store; simp [runUnits, ih]

/-! ## Lemmas about the progress trace -/

theorem progressGo_length (total : Nat) :
    ∀ (bs : List Bool) (c f : Nat), (progressGo total bs c f).length = bs.length := by
  intro bs
  induction bs with
  | nil => intro c f; rfl
  | cons ok rest ih => intro c f; simp [progressGo, ih]

theorem progressGo_cons (total : Nat) (ok : Bool) (rest : List Bool) (c f : Nat) :
    progressGo total (ok :: rest) c f
      = renderProgress (c + f + 1) total
        :: progressGo total rest (if ok then c + 1 else c) (if ok then f else f + 1) := by
  cases ok with
  | false =>
    show renderProgress (c + (f + 1)) total :: progressGo total rest c (f + 1) = _
    have harith : c + (f + 1) = c + f + 1 := by omega
    rw [harith]
    rfl
  | true =>
    show renderProgress (c + 1 + f) total :: progressGo total rest (c + 1) f = _
    have harith : c + 1 + f = c + f + 1 := by omega
    rw [harith]
    rfl

theorem progressGo_getElem (total : Nat) :
    ∀ (bs : List Bool) (c f k : Nat), k < bs.length →
      (progressGo total bs c f)[k]? = some (renderProgress (c + f + k + 1) total) := by
  intro bs
  induction bs with
  | nil => intro c f k hk; simp at hk
  | cons ok rest ih =>
    intro c f k hk
    rw [progressGo_cons]
    cases k with
    | zero => simp
    | succ k =>
      rw [List.getElem?_cons_succ]
      have hsum : (if ok then c + 1 else c) + (if ok then f else f + 1) = c + f + 1 := by
        cases ok <;> simp <;> omega
      have hgot := ih (if ok then c + 1 else c) (if ok then f else f + 1) k
        (by simpa using hk)
      rw [hsum] at hgot
      have harith : c + f + 1 + k + 1 = c + f + (k + 1) + 1 := by omega
      rw [harith] at hgot
      exact hgot

theorem progressTrace_length (outs : List (QueueItem × Bool)) (total : Nat) :
    (progressTrace outs total).length = outs.length := by
  unfold progressTrace
  rw [progressGo_length]
  simp

theorem progressTrace_getElem (outs : List (QueueItem × Bool)) (total : Nat)
    (k : Nat) (hk : k < outs.length) :
    (progressTrace outs total)[k]? = some ⟨k + 1, total, (k + 1) == total⟩ := by
  unfold progressTrace
  rw [progressGo_getElem total _ 0 0 k (by simpa using hk)]
  have harith : 0 + 0 + k + 1 = k + 1 := by omega
  rw [harith]
  rfl

/-! ## Lemmas about discovery -/

theorem discoverFrom_aux (fs : FS) :
    ∀ (folders : List String) (init : List String),
      folders.foldl
        (fun acc folder =>
          if fs.folderExists folder then acc ++ folderScan fs folder else acc) init
        = init ++ (folders.map
            (fun folder => if fs.folderExists folder then folderScan fs folder else [])).flatten := by
  intro folders
  induction folders with
  | nil => intro init; simp
  | cons d ds ih =>
    intro init
    by_cases h : fs.folderExists d
    · simp [h, ih, List.append_assoc]
    · simp [h, ih]

theorem discoverFrom_eq (fs : FS) (folders : List String) :
    discoverFrom fs folders
      = (folders.map
          (fun folder => if fs.folderExists folder then folderScan fs folder else [])).flatten := by
  unfold discoverFrom
  rw [discoverFrom_aux]
  simp

theorem discoverFrom_skip (fs : FS) (d : String) (l₁ l₂ : List String)
    (h : fs.folderExists d = false) :
    discoverFrom fs (l₁ ++ d :: l₂) = discoverFrom fs (l₁ ++ l₂) := by
  rw [discoverFrom_eq, discoverFrom_eq]
  simp [h]

/-! ## Lemmas about the window machine -/

theorem windowsGo_len_le :
    ∀ (fuel : Nat) (l : List String), ∀ w ∈ windowsGo fuel l, w.length ≤ CONCURRENCY := by
  intro fuel
  induction fuel with
  | zero =>
    intro l w hw
    cases l with
    | nil => simp [windowsGo] at hw
    | cons x xs => simp [windowsGo] at hw
  | succ fuel ih =>
    intro l w hw
    cases l with
    | nil => simp [windowsGo] at hw
    | cons x xs =>
      rw [windowsGo] at hw
      rcases List.mem_cons.mp hw with hw | hw
      · rw [hw, List.length_take]
        exact min_le_left _ _
      · exact ih _ w hw

theorem windowsGo_flatten :
    ∀ (fuel : Nat) (l : List String), l.length ≤ fuel → (windowsGo fuel l).flatten = l := by
  intro fuel
  induction fuel with
  | zero =>
    intro l hl
    have : l = [] := List.length_eq_zero.mp (by omega)
    rw [this]
    rfl
  | succ fuel ih =>
    intro l hl
    cases l with
    | nil => rfl
    | cons x xs =>
      rw [windowsGo, List.flatten_cons]
      have hdrop : ((x :: xs).drop CONCURRENCY).length ≤ fuel := by
        rw [List.length_drop]
        simp [CONCURRENCY] at hl ⊢
        omega
      rw [ih _ hdrop, List.take_append_drop]

theorem wstep_inv (s t : WState) (hst : WStep s t) (h : InvW s) : InvW t := by
  cases hst with
  | start ws u rest fl =>
    refine ⟨h.1, ?_⟩
    have := h.2
    simp at this ⊢
    omega
  | finish ws p fl₁ fl₂ u =>
    refine ⟨h.1, ?_⟩
    have := h.2
    simp [List.length_append] at this ⊢
    omega
  | next w ws =>
    refine ⟨fun w' hw' => h.1 w' (List.mem_cons_of_mem w hw'), ?_⟩
    have := h.1 w (List.mem_cons_self w ws)
    simpa using this

theorem reach_inv (s t : WState) (h : ReachW s t) (hs : InvW s) : InvW t := by
  unfold ReachW at h
  induction h with
  | refl => exact hs
  | tail _ hr ih => exact wstep_inv _ _ hr ih

theorem initW_inv (ids : List String) : InvW (initW ids) := by
  refine ⟨fun w hw => windowsGo_len_le _ _ w hw, ?_⟩
  simp [initW, CONCURRENCY]

/-! ## Lemmas about the size-limiting transformation and rounding -/

theorem limitFit_spec (w h : ℚ) (hw : 0 < w) (hh : 0 < h)
    (hbig : ¬(w ≤ 2048 ∧ h ≤ 2048)) :
    (limitFit 2048 2048 (w, h)).1 ≤ w ∧ (limitFit 2048 2048 (w, h)).2 ≤ h ∧
    (limitFit 2048 2048 (w, h)).1 ≤ 2048 ∧ (limitFit 2048 2048 (w, h)).2 ≤ 2048 ∧
    (limitFit 2048 2048 (w, h)).1 * h = (limitFit 2048 2048 (w, h)).2 * w := by
  have hcond : ¬((w, h).1 ≤ (2048:ℚ) ∧ (w, h).2 ≤ (2048:ℚ)) := hbig
  unfold limitFit
  rw [if_neg hcond]
  set s := min ((2048:ℚ) / w) (2048 / h) with hs
  have hs1 : s ≤ 2048 / w := min_le_left _ _
  have hs2 : s ≤ 2048 / h := min_le_right _ _
  have hone : s ≤ 1 := by
    rcases not_and_or.mp hbig with hc | hc
    · have hgt : (2048:ℚ) < w := not_le.mp hc
      have : (2048:ℚ) / w ≤ 1 := by
        rw [div_le_one hw]
        linarith
      linarith
    · have hgt : (2048:ℚ) < h := not_le.mp hc
      have : (2048:ℚ) / h ≤ 1 := by
        rw [div_le_one hh]
        linarith
      linarith
  have hw2048 : w * (2048 / w) = 2048 := by
    field_simp
  have hh2048 : h * (2048 / h) = 2048 := by
    field_simp
  refine ⟨?_, ?_, ?_, ?_, ?_⟩
  · calc w * s ≤ w * 1 := mul_le_mul_of_nonneg_left hone hw.le
      _ = w := mul_one w
  · calc h * s ≤ h * 1 := mul_le_mul_of_nonneg_left hone hh.le
      _ = h := mul_one h
  · calc w * s ≤ w * (2048 / w) := mul_le_mul_of_nonneg_left hs1 hw.le
      _ = 2048 := hw2048
  · calc h * s ≤ h * (2048 / h) := mul_le_mul_of_nonneg_left hs2 hh.le
      _ = 2048 := hh2048
  · ring

theorem jsRound_near (q : ℚ) : |(jsRound q : ℚ) - q| ≤ 1 / 2 := by
  unfold jsRound
  rw [abs_le]
  constructor
  · have h2 := Int.lt_floor_add_one (q + 1 / 2)
    linarith
  · have h1 := Int.floor_le (q + 1 / 2)
    linarith

theorem getNextImageNumber_match (store : Store) (t : String) (M : Nat)
    (hmax : maxTitle store = some t) (hsuf : findImgNum t.data = some M) :
    getNextImageNumber store = M + 1 := by
  unfold getNextImageNumber
  rw [hmax]
  show (match findImgNum t.data with | some m => m + 1 | none => 0) = M + 1
  rw [hsuf]

theorem getNextImageNumber_none (store : Store) (hmax : maxTitle store = none) :
    getNextImageNumber store = 0 := by
  unfold getNextImageNumber
  rw [hmax]

theorem getNextImageNumber_nomatch (store : Store) (t : String)
    (hmax : maxTitle store = some t) (hsuf : findImgNum t.data = none) :
    getNextImageNumber store = 0 := by
  unfold getNextImageNumber
  rw [hmax]
  show (match findImgNum t.data with | some m => m + 1 | none => 0) = 0
  rw [hsuf]

/-! ## Claim theorems -/

/-- C1 (counterexample). The claim says: when the store's maximal existing
identifier matching IMG-(zero-padded digits) has suffix M, the first assigned
identifier has suffix M + 1. In storeC1 the pattern-matching identifiers are
exactly IMG-0007 (suffix 7, so the claim requires first suffix 8), yet the
code derives the seed from the single lexicographically maximal title "Z",
which does not match, so the first assigned identifier is IMG-0000 with
suffix 0. -/
theorem c1_counterexample :
    storeTitles storeC1 = ["IMG-0007", "Z"]
    ∧ suffixOf "IMG-0007" = some 7
    ∧ suffixOf "Z" = none
    ∧ getNextImageNumber storeC1 = 0
    ∧ (mkQueue (getNextImageNumber storeC1) [⟨"a.jpg", "h3"⟩]).map
        (fun it => suffixOf it.id) = [some 0]
    ∧ (mkQueue (getNextImageNumber storeC1) [⟨"a.jpg", "h3"⟩]).map
        (fun it => suffixOf it.id) ≠ [some (7 + 1)] := by
  decide

/-- C1 (amended). The seed is derived from the single lexicographically
maximal title of the store: when that title matches IMG-(digits) with numeric
suffix M, the k-th (0-indexed) surviving candidate is assigned an identifier
with numeric suffix M + 1 + k; when the store is empty, or the maximal title
does not match the pattern, the k-th candidate gets suffix k (so the first
gets 0). -/
theorem c1_amended (store : Store) (pending : List PendingPhoto) (k : Nat)
    (hk : k < (mkQueue (getNextImageNumber store) pending).length) :
    (∀ t M, maxTitle store = some t → suffixOf t = some M →
      suffixOf ((mkQueue (getNextImageNumber store) pending).get ⟨k, hk⟩).id
        = some (M + 1 + k))
    ∧ (maxTitle store = none →
      suffixOf ((mkQueue (getNextImageNumber store) pending).get ⟨k, hk⟩).id
        = some k)
    ∧ (∀ t, maxTitle store = some t → suffixOf t = none →
      suffixOf ((mkQueue (getNextImageNumber store) pending).get ⟨k, hk⟩).id
        = some k) := by
  have hid := mkQueue_get_id pending (getNextImageNumber store) k hk
  refine ⟨?_, ?_, ?_⟩
  · intro t M hmax hsuf
    rw [hid, getNextImageNumber_match store t M hmax hsuf, suffixOf_mkId]
  · intro hmax
    rw [hid, getNextImageNumber_none store hmax, Nat.zero_add, suffixOf_mkId]
  · intro t hmax hsuf
    rw [hid, getNextImageNumber_nomatch store t hmax hsuf, Nat.zero_add, suffixOf_mkId]

/-- C1 (witness). With a store holding only IMG-0007 the first assigned
identifier has suffix 8. -/
theorem c1_amended_witness :
    suffixOf ((mkQueue (getNextImageNumber storeOne) [⟨"a.jpg", "h3"⟩]).get
      ⟨0, by decide⟩).id = some 8 := by
  have h := (c1_amended storeOne [⟨"a.jpg", "h3"⟩] 0 (by decide)).1 "IMG-0007" 7
    (by decide) (by decide)
  simpa using h

/-- C5. The queue is split into windows of at most CONCURRENCY = 8 units
whose concatenation is the queue; in every state reachable under the
window-loop semantics at most 8 units are in flight; and the only step that
moves to the next window requires the current window to be fully drained
(no unstarted and no in-flight units). -/
theorem c5_window_bound (ids : List String) (s : WState)
    (h : ReachW (initW ids) s) :
    s.inflight.length ≤ CONCURRENCY
    ∧ (∀ w ∈ windowsOf ids, w.length ≤ CONCURRENCY)
    ∧ (windowsOf ids).flatten = ids
    ∧ (∀ t, WStep s t → t.windows.length ≠ s.windows.length →
        s.pending = [] ∧ s.inflight = []) := by
  have hinv := reach_inv _ _ h (initW_inv ids)
  refine ⟨?_, ?_, ?_, ?_⟩
  · have := hinv.2
    omega
  · intro w hw
    exact windowsGo_len_le _ _ w hw
  · exact windowsGo_flatten _ _ le_rfl
  · intro t hstep hne
    cases hstep with
    | start ws u rest fl => exact absurd rfl hne
    | finish ws p fl₁ fl₂ u => exact absurd rfl hne
    | next w ws => exact ⟨rfl, rfl⟩

/-- C5 (witness). The bound holds at the initial state of a one-unit queue. -/
theorem c5_witness :
    (initW ["IMG-0000"]).inflight.length ≤ CONCURRENCY
    ∧ (∀ w ∈ windowsOf ["IMG-0000"], w.length ≤ CONCURRENCY)
    ∧ (windowsOf ["IMG-0000"]).flatten = ["IMG-0000"]
    ∧ (∀ t, WStep (initW ["IMG-0000"]) t →
        t.windows.length ≠ (initW ["IMG-0000"]).windows.length →
        (initW ["IMG-0000"]).pending = [] ∧ (initW ["IMG-0000"]).inflight = []) :=
  c5_window_bound ["IMG-0000"] (initW ["IMG-0000"]) Relation.ReflTransGen.refl

/-- C9. A missing folder-list file aborts the whole batch before any
processing (the store is untouched, no queue, no progress, a hard error);
a missing individual folder contributes nothing to discovery, which is the
same as running on the listing without it. -/
theorem c9_discovery_errors :
    (∀ (env : Env) (fs : FS) (store : Store), fs.listFileExists = false →
      uploadPhotosRun env fs store
        = ⟨store, [], 0, [], [], Except.error "❌ Folder list file not found"⟩)
    ∧ (∀ (fs : FS) (d : String) (l₁ l₂ : List String), fs.folderExists d = false →
      discoverFrom fs (l₁ ++ d :: l₂) = discoverFrom fs (l₁ ++ l₂)) := by
  constructor
  · intro env fs store hex
    unfold uploadPhotosRun
    rw [if_neg (by simp [hex])]
  · intro fs d l₁ l₂ h
    exact discoverFrom_skip fs d l₁ l₂ h

/-- C9 (witness). Concrete aborted run and concrete skipped folder. -/
theorem c9_witness :
    uploadPhotosRun envW fsMissing []
      = ⟨[], [], 0, [], [], Except.error "❌ Folder list file not found"⟩
    ∧ discoverFrom fsOnlyG (["g"] ++ "bad" :: []) = discoverFrom fsOnlyG (["g"] ++ []) :=
  ⟨c9_discovery_errors.1 envW fsMissing [] rfl,
   c9_discovery_errors.2 fsOnlyG "bad" ["g"] [] rfl⟩

/-- C10. A unit whose content hash is already in the store when it runs
returns without writing anything (the store is unchanged), its assigned
identifier is consumed but never persisted, and the unit is counted as a
completed success, not as a failure. -/
theorem c10_rechecked_duplicate (env : Env) (store : Store) (it : QueueItem)
    (rest : List QueueItem) (hdup : hashExists store it.hash = true) :
    processPhoto env store it = (store, true)
    ∧ (runUnits env store (it :: rest)).1 = (runUnits env store rest).1
    ∧ (runUnits env store (it :: rest)).2 = (it, true) :: (runUnits env store rest).2
    ∧ completedOf ((runUnits env store (it :: rest)).2)
        = completedOf ((runUnits env store rest).2) + 1
    ∧ failedOf ((runUnits env store (it :: rest)).2)
        = failedOf ((runUnits env store rest).2) := by
  have hp := processPhoto_dup env store it hdup
  refine ⟨hp, ?_, ?_, ?_, ?_⟩
  · simp [runUnits, hp]
  · simp [runUnits, hp]
  · simp [runUnits, hp, completedOf, List.filter_cons]
  · simp [runUnits, hp, failedOf, List.filter_cons]

/-- C10 (witness). A unit carrying the already-persisted hash "B" is skipped
with success and the store is unchanged. -/
theorem c10_witness :
    processPhoto envW storeDup ⟨"x", "B", "IMG-0009"⟩ = (storeDup, true) :=
  (c10_rechecked_duplicate envW storeDup ⟨"x", "B", "IMG-0009"⟩ [] (by decide)).1

/-- C3. Under a fresh batch (hashes of queued units absent from the store and
pairwise distinct, identifiers fresh and pairwise distinct, as the sequencer
produces them), each unit's outcome is exactly its own external success or
failure: the outcome list maps every unit to the negation of its own
unitFails, so a failing unit marks only itself; every unit is processed
(completed plus failed counts equal the queue length); the failed list is
exactly the identifiers of the failing units in order; the batch raises the
hard failure, whose message enumerates the failed identifiers, iff the failed
set is non-empty; and the run's outcome is always that aggregation of its own
failed list (when the folder list file exists). -/
theorem c3_partial_failure_isolation (env : Env) (store : Store)
    (q : List QueueItem)
    (h1 : ∀ it ∈ q, hashExists store it.hash = false)
    (h2 : q.Pairwise (fun a b => a.hash ≠ b.hash))
    (h3 : ∀ it ∈ q, ∀ p ∈ store, p.1 ≠ it.id)
    (h4 : q.Pairwise (fun a b => a.id ≠ b.id)) :
    (runUnits env store q).2 = q.map (fun it => (it, !unitFails env it))
    ∧ completedOf ((runUnits env store q).2)
        + (failedOf ((runUnits env store q).2)).length = q.length
    ∧ failedOf ((runUnits env store q).2)
        = (q.filter (fun it => unitFails env it)).map (fun it => it.id)
    ∧ (∀ failed : List String,
        (batchOutcome failed = Except.ok () ↔ failed = [])
        ∧ (failed ≠ [] → batchOutcome failed = Except.error (failureMessage failed)))
    ∧ (∀ (env' : Env) (fs : FS) (store' : Store), fs.listFileExists = true →
        (uploadPhotosRun env' fs store').outcome
          = batchOutcome ((uploadPhotosRun env' fs store').failed)) := by
  have hspec := runUnits_spec env q store h1 h2 h3 h4
  refine ⟨hspec, ?_, ?_, ?_, ?_⟩
  · have hc := outs_counts ((runUnits env store q).2)
    rw [runUnits_length env q store] at hc
    exact hc
  · rw [hspec, failedOf_map]
  · intro failed
    constructor
    · cases failed with
      | nil => simp [batchOutcome]
      | cons a as => simp [batchOutcome]
    · intro hne
      cases failed with
      | nil => exact absurd rfl hne
      | cons a as => simp [batchOutcome]
  · intro env' fs store' hex
    simp only [uploadPhotosRun, hex, if_true]
    split
    · simp [batchOutcome]
    · split
      · simp [batchOutcome]
      · split
        · simp [batchOutcome]
        · rfl

/-- C3 (witness). A two-unit batch whose second upload fails yields exactly
one failure, IMG-0001. -/
theorem c3_witness :
    failedOf ((runUnits envFail [] queueFail).2)
      = (queueFail.filter (fun it => unitFails envFail it)).map (fun it => it.id) :=
  (c3_partial_failure_isolation envFail [] queueFail (by decide) (by decide)
    (by decide) (by decide)).2.2.1

/-- C4 (counterexample). The claim says progress is reported against the
post-deduplication candidate count and the trailing newline is emitted
exactly when the done count reaches that total. In the concrete run below
two files are discovered, one is deduplicated away (queue length 1), and the
single progress call is rendered as (done 1 / total 2) with no newline: the
reported total is the pre-dedup file count, and the newline condition is
never met although the done count reached the post-dedup total. -/
theorem c4_counterexample :
    (uploadPhotosRun envDup fsDup storeDup).queue.length = 1
    ∧ (uploadPhotosRun envDup fsDup storeDup).progress = [⟨1, 2, false⟩]
    ∧ ¬ (∀ call ∈ (uploadPhotosRun envDup fsDup storeDup).progress,
          call.total = (uploadPhotosRun envDup fsDup storeDup).queue.length
          ∧ (call.newline = true
              ↔ call.done = (uploadPhotosRun envDup fsDup storeDup).queue.length)) := by
  decide

/-- C4 (amended). Progress is updated once per unit outcome (one call per
queue entry), the k-th call reports done count k + 1 against the total
DISCOVERED file count (before deduplication), and the trailing newline is
emitted exactly when the done count equals that pre-dedup count (so it is
never emitted in a batch where some file was deduplicated away). -/
theorem c4_amended (env : Env) (fs : FS) (store : Store) :
    (uploadPhotosRun env fs store).progress.length
      = (uploadPhotosRun env fs store).queue.length
    ∧ (∀ k, k < (uploadPhotosRun env fs store).progress.length →
        (uploadPhotosRun env fs store).progress[k]?
          = some ⟨k + 1,
              (sortStrings (discoverFrom fs (parseFolders fs.listLines))).length,
              (k + 1) ==
                (sortStrings (discoverFrom fs (parseFolders fs.listLines))).length⟩) := by
  simp only [uploadPhotosRun]
  split
  · split
    · exact ⟨rfl, fun k hk => by simp at hk⟩
    · split
      · exact ⟨rfl, fun k hk => by simp at hk⟩
      · split
        · exact ⟨rfl, fun k hk => by simp at hk⟩
        · constructor
          · show (progressTrace _ _).length = _
            rw [progressTrace_length, runUnits_length]
          · intro k hk
            show (progressTrace _ _)[k]? = _
            rw [progressTrace_getElem]
            rw [progressTrace_length] at hk
            exact hk
  · exact ⟨rfl, fun k hk => by simp at hk⟩

/-- C4 (witness). In the duplicate-skipping run the single call reports
1 of 2 and no newline. -/
theorem c4_amended_witness :
    (uploadPhotosRun envDup fsDup storeDup).progress[0]? = some ⟨1, 2, false⟩ := by
  have h := (c4_amended envDup fsDup storeDup).2 0 (by decide)
  exact h.trans (by decide)

/-- C7. The upload is invoked with the assigned identifier as the public
name, overwrite disabled, unique-filename disabled, in the configured folder,
and the chained conditional limit transformation (under the spec-modelled
Cloudinary limit semantics): dimensions already within 2048 pass through
unchanged (never upscaled, so the persisted width/height equal the source
dimensions), the result never exceeds the source dimensions, never exceeds
2048 on either axis, and preserves the aspect ratio exactly. -/
theorem c7_upload_invocation (id : String) (w h : ℚ) (hw : 0 < w) (hh : 0 < h) :
    (uploadParams id).publicId = id
    ∧ (uploadParams id).overwrite = false
    ∧ (uploadParams id).uniqueFilename = false
    ∧ (uploadParams id).folder = "photo-portfolio"
    ∧ (w ≤ 2048 ∧ h ≤ 2048 →
        applyTransforms (uploadParams id).transformation (w, h) = (w, h))
    ∧ (applyTransforms (uploadParams id).transformation (w, h)).1 ≤ w
    ∧ (applyTransforms (uploadParams id).transformation (w, h)).2 ≤ h
    ∧ (applyTransforms (uploadParams id).transformation (w, h)).1 ≤ 2048
    ∧ (applyTransforms (uploadParams id).transformation (w, h)).2 ≤ 2048
    ∧ (applyTransforms (uploadParams id).transformation (w, h)).1 * h
        = (applyTransforms (uploadParams id).transformation (w, h)).2 * w := by
  have hchain : applyTransforms (uploadParams id).transformation (w, h)
      = applyRule (applyRule (w, h) ⟨TCond.wGt 2048, 2048, 2048, CropMode.limit⟩)
          ⟨TCond.hGt 2048, 2048, 2048, CropMode.limit⟩ := rfl
  refine ⟨rfl, rfl, rfl, rfl, ?_, ?_⟩
  case _ =>
    intro hboth
    rw [hchain]
    have hc1 : condHolds (TCond.wGt 2048) (w, h) = false := by
      simp only [condHolds]
      exact decide_eq_false (not_lt.mpr hboth.1)
    have hr1 : applyRule (w, h) ⟨TCond.wGt 2048, 2048, 2048, CropMode.limit⟩ = (w, h) := by
      unfold applyRule
      rw [hc1]
      simp
    rw [hr1]
    have hc2 : condHolds (TCond.hGt 2048) (w, h) = false := by
      simp only [condHolds]
      exact decide_eq_false (not_lt.mpr hboth.2)
    unfold applyRule
    rw [hc2]
    simp
  case _ =>
    rw [hchain]
    rcases le_or_lt w 2048 with hwle | hwgt
    · have hc1 : condHolds (TCond.wGt 2048) (w, h) = false := by
        simp only [condHolds]
        exact decide_eq_false (not_lt.mpr hwle)
      have hr1 : applyRule (w, h) ⟨TCond.wGt 2048, 2048, 2048, CropMode.limit⟩ = (w, h) := by
        unfold applyRule
        rw [hc1]
        simp
      rw [hr1]
      rcases le_or_lt h 2048 with hhle | hhgt
      · have hc2 : condHolds (TCond.hGt 2048) (w, h) = false := by
          simp only [condHolds]
          exact decide_eq_false (not_lt.mpr hhle)
        have hr2 : applyRule (w, h) ⟨TCond.hGt 2048, 2048, 2048, CropMode.limit⟩ = (w, h) := by
          unfold applyRule
          rw [hc2]
          simp
        rw [hr2]
        exact ⟨le_refl w, le_refl h, hwle, hhle, mul_comm w h⟩
      · have hbig : ¬(w ≤ 2048 ∧ h ≤ 2048) := by
          intro hcon
          linarith [hcon.2]
        have hc2 : condHolds (TCond.hGt 2048) (w, h) = true := by
          simp only [condHolds]
          exact decide_eq_true hhgt
        have hr2 : applyRule (w, h) ⟨TCond.hGt 2048, 2048, 2048, CropMode.limit⟩
            = limitFit 2048 2048 (w, h) := by
          unfold applyRule
          rw [hc2]
          simp
        rw [hr2]
        obtain ⟨s1, s2, s3, s4, s5⟩ := limitFit_spec w h hw hh hbig
        exact ⟨s1, s2, s3, s4, s5⟩
    · have hbig : ¬(w ≤ 2048 ∧ h ≤ 2048) := by
        intro hcon
        linarith [hcon.1]
      have hc1 : condHolds (TCond.wGt 2048) (w, h) = true := by
        simp only [condHolds]
        exact decide_eq_true hwgt
      have hr1 : applyRule (w, h) ⟨TCond.wGt 2048, 2048, 2048, CropMode.limit⟩
          = limitFit 2048 2048 (w, h) := by
        unfold applyRule
        rw [hc1]
        simp
      rw [hr1]
      obtain ⟨s1, s2, s3, s4, s5⟩ := limitFit_spec w h hw hh hbig
      have hc2 : condHolds (TCond.hGt 2048) (limitFit 2048 2048 (w, h)) = false := by
        simp only [condHolds]
        exact decide_eq_false (not_lt.mpr s4)
      have hr2 : applyRule (limitFit 2048 2048 (w, h))
          ⟨TCond.hGt 2048, 2048, 2048, CropMode.limit⟩ = limitFit 2048 2048 (w, h) := by
        unfold applyRule
        rw [hc2]
        simp
      rw [hr2]
      exact ⟨s1, s2, s3, s4, s5⟩

/-- C7 (witness). A 4096 x 1024 source is scaled to 2048 x 512; the
invocation fields are as configured. -/
theorem c7_witness :
    (uploadParams "IMG-0000").publicId = "IMG-0000"
    ∧ (uploadParams "IMG-0000").overwrite = false
    ∧ (uploadParams "IMG-0000").uniqueFilename = false
    ∧ (uploadParams "IMG-0000").folder = "photo-portfolio"
    ∧ ((4096:ℚ) ≤ 2048 ∧ (1024:ℚ) ≤ 2048 →
        applyTransforms (uploadParams "IMG-0000").transformation (4096, 1024)
          = (4096, 1024))
    ∧ (applyTransforms (uploadParams "IMG-0000").transformation (4096, 1024)).1 ≤ 4096
    ∧ (applyTransforms (uploadParams "IMG-0000").transformation (4096, 1024)).2 ≤ 1024
    ∧ (applyTransforms (uploadParams "IMG-0000").transformation (4096, 1024)).1 ≤ 2048
    ∧ (applyTransforms (uploadParams "IMG-0000").transformation (4096, 1024)).2 ≤ 2048
    ∧ (applyTransforms (uploadParams "IMG-0000").transformation (4096, 1024)).1 * 1024
        = (applyTransforms (uploadParams "IMG-0000").transformation (4096, 1024)).2
            * 4096 :=
  c7_upload_invocation "IMG-0000" 4096 1024 (by norm_num) (by norm_num)

/-- C8. When the exposure time t is present and non-zero the persisted
shutterSpeed is the string 1/d with d = Math.round(1/t), and d is within 1/2
of 1/t (nearest integer, half rounded up); the reference example t = 0.004
yields "1/250"; a zero or missing exposure time yields an absent
shutterSpeed; the persisted record's shutterSpeed field is exactly this
derivation; and a unit whose external calls succeed completes successfully
whatever the EXIF data contains. -/
theorem c8_shutter_speed :
    (∀ t : ℚ, t ≠ 0 →
      shutterSpeedOf (some t) = some ("1/" ++ toString (jsRound (1 / t)))
      ∧ |(jsRound (1 / t) : ℚ) - 1 / t| ≤ 1 / 2)
    ∧ shutterSpeedOf (some ((1:ℚ) / 250)) = some "1/250"
    ∧ shutterSpeedOf (some (0 : ℚ)) = none
    ∧ shutterSpeedOf none = none
    ∧ (∀ (id : String) (resp : UploadResp) (ex : Option ExifData) (fh : String),
        (mkRecord id resp ex fh).shutterSpeed
          = shutterSpeedOf (ex.bind (fun e => e.exposureTime)))
    ∧ (∀ (env : Env) (store : Store) (it : QueueItem),
        hashExists store it.hash = false → unitFails env it = false →
        (processPhoto env store it).2 = true) := by
  refine ⟨?_, ?_, ?_, rfl, fun id resp ex fh => rfl, ?_⟩
  · intro t ht
    constructor
    · show (if (t == 0) = true then none
          else some ("1/" ++ toString (jsRound (1 / t))))
        = some ("1/" ++ toString (jsRound (1 / t)))
      rw [if_neg (by simp [ht])]
    · exact jsRound_near (1 / t)
  · show (if (((1:ℚ) / 250) == 0) = true then none
        else some ("1/" ++ toString (jsRound (1 / ((1:ℚ) / 250)))))
      = some "1/250"
    rw [if_neg (by simp only [beq_iff_eq]; norm_num)]
    have hinv : (1:ℚ) / (1 / 250) = 250 := by norm_num
    rw [hinv]
    have hround : jsRound (250:ℚ) = 250 := by
      unfold jsRound
      rw [Int.floor_eq_iff]
      constructor
      · norm_num
      · norm_num
    rw [hround]
    rfl
  · simp [shutterSpeedOf]
  · intro env store it hfr hok
    obtain ⟨resp, hu, hp⟩ := processPhoto_ok env store it hfr hok
    rw [hp]

/-- C8 (witness). Applying the derivation at t = 1/250. -/
theorem c8_witness :
    shutterSpeedOf (some ((1:ℚ) / 250))
      = some ("1/" ++ toString (jsRound (1 / ((1:ℚ) / 250)))) :=
  (c8_shutter_speed.1 ((1:ℚ) / 250) (by norm_num)).1

theorem run_single_dup (env : Env) (fs : FS) (store : Store) (d n : String)
    (h1 : fs.listFileExists = true) (h2 : parseFolders fs.listLines = [d])
    (h3 : fs.folderExists d = true) (h4 : fs.folderFiles d = [n])
    (h5 : isImage n = true)
    (hdup : hashExists store (hashOf env (pathJoin d n)) = true) :
    uploadPhotosRun env fs store = ⟨store, [], 0, [], [], Except.ok ()⟩ := by
  have hpend : dedupLoop (hashOf env) store [pathJoin d n] = [] := by
    simp [dedupLoop, hdup]
  simp [uploadPhotosRun, h1, h2, discoverFrom, h3, folderScan, h4, h5,
    sortStrings, insertSorted, hpend]

theorem run_single_new (env : Env) (fs : FS) (store : Store) (d n : String)
    (h1 : fs.listFileExists = true) (h2 : parseFolders fs.listLines = [d])
    (h3 : fs.folderExists d = true) (h4 : fs.folderFiles d = [n])
    (h5 : isImage n = true)
    (hnew : hashExists store (hashOf env (pathJoin d n)) = false) :
    uploadPhotosRun env fs store
      = ⟨(processPhoto env store ⟨pathJoin d n, hashOf env (pathJoin d n),
            mkId (getNextImageNumber store)⟩).1,
         [⟨pathJoin d n, hashOf env (pathJoin d n), mkId (getNextImageNumber store)⟩],
         completedOf [(⟨pathJoin d n, hashOf env (pathJoin d n),
            mkId (getNextImageNumber store)⟩,
           (processPhoto env store ⟨pathJoin d n, hashOf env (pathJoin d n),
              mkId (getNextImageNumber store)⟩).2)],
         failedOf [(⟨pathJoin d n, hashOf env (pathJoin d n),
            mkId (getNextImageNumber store)⟩,
           (processPhoto env store ⟨pathJoin d n, hashOf env (pathJoin d n),
              mkId (getNextImageNumber store)⟩).2)],
         progressTrace [(⟨pathJoin d n, hashOf env (pathJoin d n),
            mkId (getNextImageNumber store)⟩,
           (processPhoto env store ⟨pathJoin d n, hashOf env (pathJoin d n),
              mkId (getNextImageNumber store)⟩).2)] 1,
         batchOutcome (failedOf [(⟨pathJoin d n, hashOf env (pathJoin d n),
            mkId (getNextImageNumber store)⟩,
           (processPhoto env store ⟨pathJoin d n, hashOf env (pathJoin d n),
              mkId (getNextImageNumber store)⟩).2)])⟩ := by
  have hpend : dedupLoop (hashOf env) store [pathJoin d n]
      = [⟨pathJoin d n, hashOf env (pathJoin d n)⟩] := by
    simp [dedupLoop, hnew]
  simp [uploadPhotosRun, h1, h2, discoverFrom, h3, folderScan, h4, h5,
    sortStrings, insertSorted, hpend, mkQueue, runUnits]

/-- C2. Deduplication against the store happens before identifier
assignment: the surviving candidates are exactly the discovered files whose
content hash has no record, in unchanged relative order (a sublist of the
discovery order), and a candidate whose hash is already persisted is dropped.
Moreover, ingesting one file and then running the batch again on the same
content under any file name leaves the store unchanged (exactly one record
for that hash), with the second run skipping before assignment (empty queue)
and ending without error. -/
theorem c2_dedup_idempotence :
    (∀ (hashF : String → String) (store : Store) (files : List String),
      dedupLoop hashF store files
        = (files.filter (fun p => !hashExists store (hashF p))).map
            (fun p => (⟨p, hashF p⟩ : PendingPhoto))
      ∧ ((dedupLoop hashF store files).map (fun q => q.filePath)).Sublist files
      ∧ (∀ p ∈ files, hashExists store (hashF p) = true →
          p ∉ (dedupLoop hashF store files).map (fun q => q.filePath)))
    ∧ (∀ (env : Env) (fs₁ fs₂ : FS) (store : Store) (d₁ n₁ d₂ n₂ c : String),
        fs₁.listFileExists = true →
        parseFolders fs₁.listLines = [d₁] →
        fs₁.folderExists d₁ = true →
        fs₁.folderFiles d₁ = [n₁] →
        isImage n₁ = true →
        env.contentOf (pathJoin d₁ n₁) = c →
        fs₂.listFileExists = true →
        parseFolders fs₂.listLines = [d₂] →
        fs₂.folderExists d₂ = true →
        fs₂.folderFiles d₂ = [n₂] →
        isImage n₂ = true →
        env.contentOf (pathJoin d₂ n₂) = c →
        hashExists store (env.sha1 c) = false →
        (∀ p ∈ store, p.1 ≠ mkId (getNextImageNumber store)) →
        unitFails env ⟨pathJoin d₁ n₁, env.sha1 c,
          mkId (getNextImageNumber store)⟩ = false →
        countHash ((uploadPhotosRun env fs₁ store).store) (env.sha1 c) = 1
        ∧ (uploadPhotosRun env fs₂ ((uploadPhotosRun env fs₁ store).store)).store
            = (uploadPhotosRun env fs₁ store).store
        ∧ (uploadPhotosRun env fs₂ ((uploadPhotosRun env fs₁ store).store)).queue = []
        ∧ (uploadPhotosRun env fs₂ ((uploadPhotosRun env fs₁ store).store)).outcome
            = Except.ok ()) := by
  constructor
  · intro hashF store files
    exact ⟨dedupLoop_eq hashF store files,
      dedupLoop_paths_sublist hashF store files,
      fun p hp hdup => dedupLoop_drops hashF store files p hp hdup⟩
  · intro env fs₁ fs₂ store d₁ n₁ d₂ n₂ c ha1 ha2 ha3 ha4 ha5 hc₁ hb1 hb2 hb3 hb4 hb5
      hc₂ hnew hfreshid hok
    have hhash₁ : hashOf env (pathJoin d₁ n₁) = env.sha1 c := by
      unfold hashOf
      rw [hc₁]
    have hhash₂ : hashOf env (pathJoin d₂ n₂) = env.sha1 c := by
      unfold hashOf
      rw [hc₂]
    set it : QueueItem :=
      ⟨pathJoin d₁ n₁, env.sha1 c, mkId (getNextImageNumber store)⟩ with hit
    have hnew' : hashExists store (hashOf env (pathJoin d₁ n₁)) = false := by
      rw [hhash₁]
      exact hnew
    have hrun₁ := run_single_new env fs₁ store d₁ n₁ ha1 ha2 ha3 ha4 ha5 hnew'
    obtain ⟨resp, hu, hp⟩ := processPhoto_ok env store it
      (by rw [hit]; exact hnew) hok
    have hput : putDoc store it.id (mkRecord it.id resp (env.exif it.filePath) it.hash)
        = (it.id, mkRecord it.id resp (env.exif it.filePath) it.hash) :: store :=
      putDoc_fresh _ _ _ (by intro p hp'; rw [hit]; exact hfreshid p hp')
    have hstore₁ : (uploadPhotosRun env fs₁ store).store
        = (it.id, mkRecord it.id resp (env.exif it.filePath) it.hash) :: store := by
      rw [hrun₁]
      show (processPhoto env store
        ⟨pathJoin d₁ n₁, hashOf env (pathJoin d₁ n₁), mkId (getNextImageNumber store)⟩).1 = _
      rw [hhash₁, ← hit, hp, hput]
    have hcount : countHash ((uploadPhotosRun env fs₁ store).store) (env.sha1 c) = 1 := by
      rw [hstore₁, countHash_cons]
      have hrechash : (mkRecord it.id resp (env.exif it.filePath) it.hash).hash
          = env.sha1 c := rfl
      rw [hrechash]
      simp [countHash_of_not_exists store (env.sha1 c) hnew]
    have hdup₂ : hashExists ((uploadPhotosRun env fs₁ store).store)
        (hashOf env (pathJoin d₂ n₂)) = true := by
      rw [hhash₂, hstore₁, hashExists_cons]
      have hrechash : (mkRecord it.id resp (env.exif it.filePath) it.hash).hash
          = env.sha1 c := rfl
      rw [hrechash]
      simp
    have hrun₂ := run_single_dup env fs₂ ((uploadPhotosRun env fs₁ store).store)
      d₂ n₂ hb1 hb2 hb3 hb4 hb5 hdup₂
    refine ⟨hcount, ?_, ?_, ?_⟩
    · rw [hrun₂]
    · rw [hrun₂]
    · rw [hrun₂]

/-- C2 (witness). Two concrete runs on the same content "c" under names
a.jpg then b.jpg: one record persisted, the second run leaves the store
unchanged, assigns nothing and succeeds. -/
theorem c2_witness :
    countHash ((uploadPhotosRun envW fsA []).store) (envW.sha1 "c") = 1
    ∧ (uploadPhotosRun envW fsB ((uploadPhotosRun envW fsA []).store)).store
        = (uploadPhotosRun envW fsA []).store
    ∧ (uploadPhotosRun envW fsB ((uploadPhotosRun envW fsA []).store)).queue = []
    ∧ (uploadPhotosRun envW fsB ((uploadPhotosRun envW fsA []).store)).outcome
        = Except.ok () :=
  c2_dedup_idempotence.2 envW fsA fsB [] "d" "a.jpg" "d" "b.jpg" "c"
    rfl (by decide) rfl rfl (by decide) rfl rfl (by decide) rfl rfl (by decide) rfl
    (by decide) (by decide) (by decide)

theorem run_queue_env (env₁ env₂ : Env) (fs : FS) (store : Store)
    (hhash : hashOf env₁ = hashOf env₂) :
    (uploadPhotosRun env₁ fs store).queue = (uploadPhotosRun env₂ fs store).queue := by
  simp only [uploadPhotosRun]
  rw [hhash]
  by_cases h1 : fs.listFileExists = true
  · simp only [h1, if_true]
    by_cases h2 : (parseFolders fs.listLines).isEmpty = true
    · simp only [if_pos h2]
    · simp only [if_neg h2]
      by_cases h3 : (sortStrings (discoverFrom fs (parseFolders fs.listLines))).isEmpty
          = true
      · simp only [if_pos h3]
      · simp only [if_neg h3]
        by_cases h4 : (dedupLoop (hashOf env₂) store
            (sortStrings (discoverFrom fs (parseFolders fs.listLines)))).isEmpty = true
        · simp only [if_pos h4]
        · simp only [if_neg h4]
  · simp [h1]

/-- C6. The identifier assignment is a function of the content hashes, the
store state and the set of discovered paths alone: any two discovery orders
that are permutations of each other give the same assignment (the paths are
sorted first), and two environments that agree on file contents and hashing
give runs with the same assigned queue whatever their upload, EXIF or
persistence behavior does — so the assignment is fixed before concurrent
work and independent of unit completion order, and a second run over a reset
store reproduces it. -/
theorem c6_determinism (hashF : String → String) (store : Store)
    (paths₁ paths₂ : List String) (hperm : paths₁.Perm paths₂)
    (env₁ env₂ : Env) (fs : FS)
    (hc : env₁.contentOf = env₂.contentOf) (hs : env₁.sha1 = env₂.sha1) :
    assignments hashF store paths₁ = assignments hashF store paths₂
    ∧ (uploadPhotosRun env₁ fs store).queue = (uploadPhotosRun env₂ fs store).queue := by
  constructor
  · unfold assignments
    rw [sortStrings_eq_of_perm hperm]
  · apply run_queue_env
    funext p
    unfold hashOf
    rw [hc, hs]

/-- C6 (witness). Swapped discovery order and an environment differing in
upload behavior give the same assignment. -/
theorem c6_witness :
    assignments (fun s => s) [] ["f/b.jpg", "f/a.jpg"]
      = assignments (fun s => s) [] ["f/a.jpg", "f/b.jpg"]
    ∧ (uploadPhotosRun envW fsA []).queue = (uploadPhotosRun envFail fsA []).queue :=
  c6_determinism (fun s => s) [] ["f/b.jpg", "f/a.jpg"] ["f/a.jpg", "f/b.jpg"]
    (List.Perm.swap "f/a.jpg" "f/b.jpg" []) envW envFail fsA rfl rfl

end PhotoCli
